import Mathlib

/-!
Verification of the YELLOW-logic engagement-scoring repository.

The development shallowly embeds the scoring core of the repository:

* the per-session activity scorer (`scoreMessage`), duplicated verbatim in
  `src/Yellow-main/YELLOW/populate_from_json.py` (cap 5),
  `src/automation/realtime_activity_updater.py` (cap 10),
  `src/migration/populate_telegram_history.py` (cap 10) and
  `src/yellow_pipeline.py` (cap 10); the cap and the bonus multiplier
  (`SCORING_BONUS_MULTIPLIER`, default 1.25) are parameters;
* the per-day session map and the incremental merge of
  `src/automation/realtime_activity_updater.py` (`run_update`);
* the two cross-engagement classifiers
  (`src/cross_engagement_tracker.py` / `src/automation/cross_engagement_tracker.py`);
* the rank assignment of `src/automation/update_current_leaderboard.py`;
* the leaderboard-generation gating of `src/generate_leaderboard.py` and
  `src/automation/generate_leaderboard.py`.

Floating-point scores are modelled as exact rationals (all constants in the
source, 1.25 in particular, are exactly representable in binary floating
point, and every claim concerns values far from rounding boundaries).
-/

namespace YellowLogic

/-! ## Session scorer

One session's state, mirroring the Python dict
`{'messages': 0, 'score': 0.0, 'last_score': 0.0}`. -/

structure SessionState where
  messages : Nat
  score : ℚ
  last_score : ℚ
  deriving Repr, DecidableEq

/-- The fresh state created by `setdefault(session_id, {'messages': 0, 'score': 0.0,
'last_score': 0.0})`. -/
def initialSessionState : SessionState := ⟨0, 0, 0⟩

/-- One scoring step of the session state machine, as written (four near-identical
copies) e.g. in `src/automation/realtime_activity_updater.py` lines 141-148:

```
if session_state['messages'] >= CAP: continue
current_msg_score = 1.0 if session_state['messages'] == 0
                    else session_state['last_score'] * SCORING_BONUS_MULTIPLIER
session_state['messages'] += 1
session_state['score'] += current_msg_score
session_state['last_score'] = current_msg_score
```
-/
def scoreMessage (cap : Nat) (b : ℚ) (s : SessionState) : SessionState :=
  if s.messages ≥ cap then s
  else
    let current_msg_score : ℚ := if s.messages = 0 then 1 else s.last_score * b
    { messages := s.messages + 1
      score := s.score + current_msg_score
      last_score := current_msg_score }

/-- State of one session after `n` messages of that session bucket have been fed
to the scorer, starting from the fresh state. -/
def stateAfter (cap : Nat) (b : ℚ) : Nat → SessionState
  | 0 => initialSessionState
  | n + 1 => scoreMessage cap b (stateAfter cap b n)

/-- Closed form of the scorer below the cap: after `n ≤ cap` messages the state is
`(n, ∑ i < n, b^i, b^(n-1))` (with `last_score = 0` for `n = 0`). -/
theorem stateAfter_closed (cap : Nat) (b : ℚ) :
    ∀ n, n ≤ cap →
      stateAfter cap b n =
        ⟨n, ∑ i ∈ Finset.range n, b ^ i, if n = 0 then 0 else b ^ (n - 1)⟩ := by
  intro n
  induction n with
  | zero => intro _; rfl
  | succ m ih =>
    intro hle
    have hm : m ≤ cap := Nat.le_of_succ_le hle
    have hmlt : m < cap := Nat.lt_of_succ_le hle
    rw [stateAfter, ih hm, scoreMessage]
    simp only [ge_iff_le, Nat.not_le.mpr hmlt, if_false]
    cases m with
    | zero => simp [Finset.sum_range_succ]
    | succ k => simp [Finset.sum_range_succ, pow_succ]

/-- Above the cap the state is frozen at its `cap`-message value. -/
theorem stateAfter_freeze (cap : Nat) (b : ℚ) :
    ∀ n, cap ≤ n → stateAfter cap b n = stateAfter cap b cap := by
  intro n
  induction n with
  | zero => intro h; rw [Nat.le_zero.mp h]
  | succ m ih =>
    intro hle
    rcases Nat.lt_or_ge cap (m + 1) with hlt | hge
    · have hcm : cap ≤ m := Nat.lt_succ_iff.mp hlt
      have hmsg : (stateAfter cap b m).messages = cap := by
        rw [ih hcm, stateAfter_closed cap b cap (le_refl cap)]
      rw [stateAfter, scoreMessage, if_pos (le_of_eq hmsg.symm), ih hcm]
    · have : cap = m + 1 := Nat.le_antisymm hle hge
      rw [this]

/-- `messages` after `n` steps is `min n cap`. -/
theorem stateAfter_messages (cap : Nat) (b : ℚ) (n : Nat) :
    (stateAfter cap b n).messages = min n cap := by
  rcases Nat.le_total n cap with h | h
  · rw [stateAfter_closed cap b n h, Nat.min_eq_left h]
  · rw [stateAfter_freeze cap b n h, stateAfter_closed cap b cap (le_refl cap),
      Nat.min_eq_right h]

/-- Score of the state after `n` messages: the partial geometric series, clipped
at the cap. -/
theorem stateAfter_score (cap : Nat) (b : ℚ) (n : Nat) :
    (stateAfter cap b n).score = ∑ i ∈ Finset.range (min n cap), b ^ i := by
  rcases Nat.le_total n cap with h | h
  · rw [stateAfter_closed cap b n h, Nat.min_eq_left h]
  · rw [stateAfter_freeze cap b n h, stateAfter_closed cap b cap (le_refl cap),
      Nat.min_eq_right h]

/-- With a non-negative multiplier the score is monotone in the number of
messages fed. -/
theorem stateAfter_score_mono (cap : Nat) (b : ℚ) (hb : 0 ≤ b) {m n : Nat}
    (hmn : m ≤ n) : (stateAfter cap b m).score ≤ (stateAfter cap b n).score := by
  rw [stateAfter_score, stateAfter_score]
  refine Finset.sum_le_sum_of_subset_of_nonneg ?_ ?_
  · exact Finset.range_subset.mpr (min_le_min hmn (le_refl cap))
  · intro i _ _
    exact pow_nonneg hb i

/-! ## Messages and the per-bucket fold

A chat message as the scoring scripts see it: sender, Telegram message id and
timestamp.  Raw text plays no role in scoring and is omitted. -/

structure Message where
  sender_id : Nat
  msg_id : Nat
  timestamp : Nat
  deriving Repr, DecidableEq

/-- Feeding a batch of messages of one (participant, date, session) bucket to the
scorer: each message triggers one `scoreMessage` step (the step itself reads no
field of the message — the message only selects the bucket, fixed here). -/
def scoreFold (cap : Nat) (b : ℚ) (msgs : List Message) : SessionState :=
  msgs.foldl (fun s _ => scoreMessage cap b s) initialSessionState

theorem foldl_scoreMessage (cap : Nat) (b : ℚ) :
    ∀ (l : List Message) (s : SessionState),
      l.foldl (fun t _ => scoreMessage cap b t) s = (scoreMessage cap b)^[l.length] s := by
  intro l
  induction l with
  | nil => intro s; rfl
  | cons m rest ih =>
    intro s
    rw [List.foldl_cons, ih, List.length_cons, Function.iterate_succ_apply]

theorem stateAfter_eq_iterate (cap : Nat) (b : ℚ) (n : Nat) :
    stateAfter cap b n = (scoreMessage cap b)^[n] initialSessionState := by
  induction n with
  | zero => rfl
  | succ m ih => rw [stateAfter, ih, Function.iterate_succ_apply' (scoreMessage cap b) m]

/-- The bucket fold only depends on the number of messages in the bucket. -/
theorem scoreFold_eq_stateAfter (cap : Nat) (b : ℚ) (msgs : List Message) :
    scoreFold cap b msgs = stateAfter cap b msgs.length := by
  rw [scoreFold, foldl_scoreMessage, stateAfter_eq_iterate]

/-! ## Sorting a message batch

`new_messages.sort(key=lambda m: m.id)` in `src/automation/realtime_activity_updater.py`
line 121 — a stable ascending sort, modelled as stable insertion sort, once keyed
by message id and once keyed by timestamp. -/

def insertByLe (le : Message → Message → Bool) (m : Message) : List Message → List Message
  | [] => [m]
  | x :: xs => if le m x then m :: x :: xs else x :: insertByLe le m xs

def sortByLe (le : Message → Message → Bool) : List Message → List Message
  | [] => []
  | x :: xs => insertByLe le x (sortByLe le xs)

/-- `sort(key=lambda m: m.id)`. -/
def sortById (msgs : List Message) : List Message :=
  sortByLe (fun a c => Nat.ble a.msg_id c.msg_id) msgs

/-- The same batch sorted by ascending timestamp. -/
def sortByDate (msgs : List Message) : List Message :=
  sortByLe (fun a c => Nat.ble a.timestamp c.timestamp) msgs

theorem length_insertByLe (le : Message → Message → Bool) (m : Message) :
    ∀ l : List Message, (insertByLe le m l).length = l.length + 1 := by
  intro l
  induction l with
  | nil => rfl
  | cons x xs ih =>
    rw [insertByLe]
    by_cases h : le m x
    · rw [if_pos h, List.length_cons, List.length_cons]
    · rw [if_neg h, List.length_cons, ih, List.length_cons]

theorem length_sortByLe (le : Message → Message → Bool) :
    ∀ l : List Message, (sortByLe le l).length = l.length := by
  intro l
  induction l with
  | nil => rfl
  | cons x xs ih => rw [sortByLe, length_insertByLe, ih, List.length_cons]

/-! ## Claims C1, C2, C6 -/

/-- C1: the first scored message of a session scores exactly 1.0, each subsequent
scored message scores `last_message_score * BONUS_MULTIPLIER`, and after exactly
CAP scored messages `cumulative_score = ∑ i < CAP, BONUS_MULTIPLIER^i`; with
CAP = 5 and BONUS_MULTIPLIER = 1.25 the per-message scores are
[1.0, 1.25, 1.5625, 1.953125, 2.44140625] and the cumulative score is
8.20703125. -/
theorem activity_score_geometric (cap : Nat) (b : ℚ) (hcap : 0 < cap) :
    (stateAfter cap b 1).last_score = 1
    ∧ (∀ n, n + 1 < cap →
        (stateAfter cap b (n + 2)).last_score = (stateAfter cap b (n + 1)).last_score * b)
    ∧ (stateAfter cap b cap).score = ∑ i ∈ Finset.range cap, b ^ i
    ∧ (List.range 5).map (fun i => (stateAfter 5 (5/4) (i + 1)).last_score)
        = [1, 5/4, 25/16, 125/64, 625/256]
    ∧ (stateAfter 5 (5/4) 5).score = 2101/256 := by
  refine ⟨?_, ?_, ?_, ?_, ?_⟩
  · rw [stateAfter_closed cap b 1 hcap]
    simp
  · intro n hn
    have h2 : n + 2 ≤ cap := hn
    have h1 : n + 1 ≤ cap := Nat.le_of_succ_le h2
    rw [stateAfter_closed cap b (n + 2) h2, stateAfter_closed cap b (n + 1) h1]
    simp [pow_succ]
  · rw [stateAfter_closed cap b cap (le_refl cap)]
  · norm_num [List.range_succ, stateAfter, scoreMessage, initialSessionState]
  · norm_num [stateAfter, scoreMessage, initialSessionState]

/-- Witness for C1 at CAP = 5, BONUS_MULTIPLIER = 1.25. -/
theorem activity_score_geometric_witness :
    0 < 5 ∧ (stateAfter 5 (5/4) 5).score = ∑ i ∈ Finset.range 5, ((5:ℚ)/4) ^ i :=
  ⟨by decide, (activity_score_geometric 5 (5/4) (by decide)).2.2.1⟩

/-- C2: along any sequence of messages fed to one session's scorer, message_count
and cumulative_score never decrease; once message_count has reached CAP every
further message leaves the state entirely unchanged; cumulative_score never
exceeds its CAP-message value. -/
theorem session_state_monotone_and_frozen (cap : Nat) (b : ℚ) (hb : 0 ≤ b)
    (msgs more : List Message) :
    (scoreFold cap b msgs).messages ≤ (scoreFold cap b (msgs ++ more)).messages
    ∧ (scoreFold cap b msgs).score ≤ (scoreFold cap b (msgs ++ more)).score
    ∧ ((scoreFold cap b msgs).messages = cap →
        scoreFold cap b (msgs ++ more) = scoreFold cap b msgs)
    ∧ (scoreFold cap b msgs).score ≤ (stateAfter cap b cap).score := by
  have hlen : msgs.length ≤ (msgs ++ more).length := by
    rw [List.length_append]; exact Nat.le_add_right _ _
  refine ⟨?_, ?_, ?_, ?_⟩
  · rw [scoreFold_eq_stateAfter, scoreFold_eq_stateAfter, stateAfter_messages,
      stateAfter_messages]
    exact min_le_min hlen (le_refl cap)
  · rw [scoreFold_eq_stateAfter, scoreFold_eq_stateAfter]
    exact stateAfter_score_mono cap b hb hlen
  · intro hfull
    rw [scoreFold_eq_stateAfter, stateAfter_messages] at hfull
    have hcap : cap ≤ msgs.length := by
      rcases Nat.le_total msgs.length cap with h | h
      · rw [Nat.min_eq_left h] at hfull; exact le_of_eq hfull.symm
      · exact h
    rw [scoreFold_eq_stateAfter, scoreFold_eq_stateAfter,
      stateAfter_freeze cap b msgs.length hcap,
      stateAfter_freeze cap b (msgs ++ more).length (le_trans hcap hlen)]
  · rw [scoreFold_eq_stateAfter, stateAfter_score, stateAfter_score,
      Nat.min_self]
    refine Finset.sum_le_sum_of_subset_of_nonneg ?_ ?_
    · exact Finset.range_subset.mpr (Nat.min_le_right _ _)
    · intro i _ _
      exact pow_nonneg hb i

/-- Witness for C2: six messages in a five-cap session leave the five-message
state unchanged. -/
theorem session_state_monotone_and_frozen_witness :
    (0:ℚ) ≤ 5/4
    ∧ (scoreFold 5 (5/4) (List.replicate 5 ⟨7, 1, 0⟩)).messages = 5
    ∧ scoreFold 5 (5/4) (List.replicate 5 ⟨7, 1, 0⟩ ++ List.replicate 3 ⟨7, 2, 0⟩)
        = scoreFold 5 (5/4) (List.replicate 5 ⟨7, 1, 0⟩) :=
  ⟨by norm_num, by simp [scoreFold_eq_stateAfter, stateAfter_messages],
    (session_state_monotone_and_frozen 5 (5/4) (by norm_num)
      (List.replicate 5 ⟨7, 1, 0⟩) (List.replicate 3 ⟨7, 2, 0⟩)).2.2.1
      (by simp [scoreFold_eq_stateAfter, stateAfter_messages])⟩

/-- C6: for a batch of messages of one participant and one session bucket, the
state the code computes (the batch sorted ascending by message id, as in
`realtime_activity_updater.py`, or unsorted, as in `yellow_pipeline.py`) equals
the state obtained by folding the scoring step over the batch sorted by
ascending timestamp. -/
theorem scorer_timestamp_order (cap : Nat) (b : ℚ) (msgs : List Message) :
    scoreFold cap b (sortById msgs) = scoreFold cap b (sortByDate msgs)
    ∧ scoreFold cap b msgs = scoreFold cap b (sortByDate msgs) := by
  constructor
  · rw [scoreFold_eq_stateAfter, scoreFold_eq_stateAfter, sortById, sortByDate,
      length_sortByLe, length_sortByLe]
  · rw [scoreFold_eq_stateAfter, scoreFold_eq_stateAfter, sortByDate, length_sortByLe]

/-! ## Daily records, rounding and the incremental merge

`round(x, 4)` in Python rounds half to even at 4 decimal places.  Floats are
modelled as exact rationals; `round4` performs exact half-even rounding at
4 decimals. -/

/-- Round half to even to the nearest integer. -/
def roundHalfEven (x : ℚ) : ℤ :=
  if x - ⌊x⌋ < 1/2 then ⌊x⌋
  else if (1:ℚ)/2 < x - ⌊x⌋ then ⌊x⌋ + 1
  else if 2 ∣ ⌊x⌋ then ⌊x⌋ else ⌊x⌋ + 1

/-- Python `round(x, 4)`. -/
def round4 (x : ℚ) : ℚ := (roundHalfEven (x * 10000) : ℚ) / 10000

theorem roundHalfEven_of_lt_half (x : ℚ) (z : ℤ) (h1 : (z:ℚ) ≤ x)
    (h2 : x < (z:ℚ) + 1/2) : roundHalfEven x = z := by
  have hx1 : x < (z:ℚ) + 1 := lt_trans h2 (by linarith)
  have hfl : ⌊x⌋ = z := Int.floor_eq_iff.mpr ⟨h1, hx1⟩
  rw [roundHalfEven, hfl, if_pos (by linarith)]

/-- Evaluation helper for `round4` away from the rounding boundary. -/
theorem round4_eq_of (x : ℚ) (z : ℤ) (h1 : (z:ℚ) ≤ x * 10000)
    (h2 : x * 10000 < (z:ℚ) + 1/2) : round4 x = (z : ℚ) / 10000 := by
  rw [round4, roundHalfEven_of_lt_half (x * 10000) z h1 h2]

theorem round4_one : round4 1 = 1 := by
  rw [round4_eq_of 1 10000 (by norm_num) (by norm_num)]
  norm_num

theorem round4_nine_quarters : round4 (9/4) = 9/4 := by
  rw [round4_eq_of (9/4) 22500 (by norm_num) (by norm_num)]
  norm_num

theorem round4_geom5 : round4 (2101/256) = 8207/1000 := by
  rw [round4_eq_of (2101/256) 82070 (by norm_num) (by norm_num)]
  norm_num

theorem round4_geom5_rounded : round4 (8207/1000) = 8207/1000 := by
  rw [round4_eq_of (8207/1000) 82070 (by norm_num) (by norm_num)]
  norm_num

/-- The 3-hour bucket of a message: `session_start // 3` for
`session_start = (hour // 3) * 3`, `hour = dt.hour`.  Timestamps are seconds
since an epoch midnight, so `hour = timestamp / 3600 % 24`.  The eight labels
"00-03" … "21-24" correspond bijectively to bucket indices 0 … 7. -/
def sessionIndex (m : Message) : Nat := m.timestamp / 3600 % 24 / 3

/-- Whether the in-memory day dict has an entry for bucket `s`: `setdefault`
creates the entry when the first message of the bucket arrives (before the cap
check), so an entry exists iff some message fell in the bucket. -/
def touched (msgs : List Message) (s : Nat) : Bool :=
  msgs.any (fun m => sessionIndex m == s)

/-- One day's in-memory scorer state for one participant: the message loop of
`populate_from_json.py` lines 98-136 / `realtime_activity_updater.py` lines
126-148, restricted to one participant and one date (buckets with no message
hold the fresh state, matching an absent dict entry). -/
def runScorer (cap : Nat) (b : ℚ) (msgs : List Message) : Nat → SessionState :=
  msgs.foldl
    (fun acc m => fun s =>
      if s = sessionIndex m then scoreMessage cap b (acc s) else acc s)
    (fun _ => initialSessionState)

theorem runScorer_go (cap : Nat) (b : ℚ) :
    ∀ (msgs : List Message) (acc : Nat → SessionState) (s : Nat),
      msgs.foldl
        (fun acc m => fun t =>
          if t = sessionIndex m then scoreMessage cap b (acc t) else acc t) acc s
      = (scoreMessage cap b)^[msgs.countP (fun m => sessionIndex m == s)] (acc s) := by
  intro msgs
  induction msgs with
  | nil => intro acc s; rfl
  | cons m rest ih =>
    intro acc s
    rw [List.foldl_cons, ih, List.countP_cons]
    by_cases h : s = sessionIndex m
    · have hc : (sessionIndex m == s) = true := by
        rw [beq_iff_eq, h]
      simp only [hc, if_pos h, if_true, Function.iterate_succ_apply]
    · have hc : (sessionIndex m == s) = false := by
        rw [beq_eq_false_iff_ne]
        exact fun he => h he.symm
      simp only [hc, if_neg h, if_false, Nat.add_zero, Bool.false_eq_true]

/-- Each bucket's final state is the single-session state after as many steps as
the bucket received messages. -/
theorem runScorer_eq_stateAfter (cap : Nat) (b : ℚ) (msgs : List Message) (s : Nat) :
    runScorer cap b msgs s
      = stateAfter cap b (msgs.countP (fun m => sessionIndex m == s)) := by
  rw [runScorer, runScorer_go, stateAfter_eq_iterate]

/-- One session entry of the persisted `intervals_details_json`. -/
structure SessionJson where
  messages : Nat
  score : ℚ
  deriving Repr, DecidableEq

/-- The `intervals_details_json` built by the full rebuild
(`populate_from_json.py` lines 147-150): one entry per bucket that received a
message, with the session score rounded to 4 decimals. -/
def rebuildSessions (cap : Nat) (b : ℚ) (msgs : List Message) :
    Nat → Option SessionJson :=
  fun s => if touched msgs s
    then some ⟨(runScorer cap b msgs s).messages, round4 (runScorer cap b msgs s).score⟩
    else none

/-- `total_day_score` of the full rebuild (`populate_from_json.py` lines 144 and
155): the *unrounded* session scores are summed and the sum is rounded to 4
decimals.  The Python generator ranges over the buckets present in the dict;
absent buckets contribute 0 here, and every present bucket index is < 8. -/
def rebuildTotal (cap : Nat) (b : ℚ) (msgs : List Message) : ℚ :=
  round4 (((List.range 8).map
    (fun s => if touched msgs s then (runScorer cap b msgs s).score else 0)).sum)

/-- The merged `final_sessions` of the incremental updater
(`realtime_activity_updater.py` lines 184-187): start from the existing
record's session map and overwrite every bucket touched by new messages with
the state recomputed from the new messages alone. -/
def mergeSessions (cap : Nat) (b : ℚ) (existing : Nat → Option SessionJson)
    (newMsgs : List Message) : Nat → Option SessionJson :=
  fun s => if touched newMsgs s
    then some ⟨(runScorer cap b newMsgs s).messages,
               round4 (runScorer cap b newMsgs s).score⟩
    else existing s

/-- Sum of the stored session scores of a session map
(`sum(details.get('score', 0.0) for details in final_sessions.values())`). -/
def sessionsTotal (sessions : Nat → Option SessionJson) : ℚ :=
  ((List.range 8).map (fun s => ((sessions s).map SessionJson.score).getD 0)).sum

/-- `total_day_score` written by the incremental updater
(`realtime_activity_updater.py` lines 189-194). -/
def mergedTotal (cap : Nat) (b : ℚ) (existing : Nat → Option SessionJson)
    (newMsgs : List Message) : ℚ :=
  round4 (sessionsTotal (mergeSessions cap b existing newMsgs))

theorem mergeSessions_untouched (cap : Nat) (b : ℚ) (existing : Nat → Option SessionJson)
    (newMsgs : List Message) (s : Nat) (hs : touched newMsgs s = false) :
    mergeSessions cap b existing newMsgs s = existing s := by
  simp [mergeSessions, hs]

theorem mergeSessions_touched (cap : Nat) (b : ℚ) (existing : Nat → Option SessionJson)
    (newMsgs : List Message) (s : Nat) (hs : touched newMsgs s = true) :
    mergeSessions cap b existing newMsgs s
      = some ⟨(runScorer cap b newMsgs s).messages,
              round4 (runScorer cap b newMsgs s).score⟩ := by
  simp [mergeSessions, hs]

theorem mergeSessions_idem (cap : Nat) (b : ℚ) (existing : Nat → Option SessionJson)
    (newMsgs : List Message) :
    mergeSessions cap b (mergeSessions cap b existing newMsgs) newMsgs
      = mergeSessions cap b existing newMsgs := by
  funext s
  by_cases h : touched newMsgs s
  · simp [mergeSessions, h]
  · simp [mergeSessions, h]

/-! ## Claims C3 and C10 -/

/-- C3 counterexample: a session already holding one scored message receives one
new message.  The incremental merge recomputes the touched bucket from the new
message alone (total 1.0), while a full rebuild over the complete two-message
set gives 1.0 + 1.25 = 2.25; the totals differ, so merge-then-rebuild
equivalence fails as stated. -/
theorem merge_rebuild_counterexample :
    mergedTotal 10 (5/4) (rebuildSessions 10 (5/4) [⟨7, 1, 0⟩]) [⟨7, 2, 60⟩]
      ≠ rebuildTotal 10 (5/4) [⟨7, 1, 0⟩, ⟨7, 2, 60⟩] := by
  have h1 : mergedTotal 10 (5/4) (rebuildSessions 10 (5/4) [⟨7, 1, 0⟩]) [⟨7, 2, 60⟩]
      = 1 := by
    norm_num [mergedTotal, sessionsTotal, mergeSessions, rebuildSessions, touched,
      sessionIndex, List.range_succ, runScorer, scoreMessage, initialSessionState,
      round4_one]
  have h2 : rebuildTotal 10 (5/4) [⟨7, 1, 0⟩, ⟨7, 2, 60⟩] = 9/4 := by
    norm_num [rebuildTotal, touched, sessionIndex, List.range_succ, runScorer,
      scoreMessage, initialSessionState, round4_nine_quarters]
  rw [h1, h2]
  norm_num

/-- C3 (amended): the incremental merge of `realtime_activity_updater.py`
preserves sessions not touched by new messages and is idempotent (applying the
same new-message set twice changes neither the session map nor the stored
total), but a touched session is recomputed from the *new messages only* —
overwriting, not extending, its previous state — so incremental merge followed
by full rebuild over the same final message set does not in general yield the
same total_day_score. -/
theorem incremental_merge_overwrites (cap : Nat) (b : ℚ)
    (existing : Nat → Option SessionJson) (newMsgs : List Message) :
    (∀ s, touched newMsgs s = false →
      mergeSessions cap b existing newMsgs s = existing s)
    ∧ (∀ s, touched newMsgs s = true →
        mergeSessions cap b existing newMsgs s
          = some ⟨(runScorer cap b newMsgs s).messages,
                  round4 (runScorer cap b newMsgs s).score⟩)
    ∧ mergeSessions cap b (mergeSessions cap b existing newMsgs) newMsgs
        = mergeSessions cap b existing newMsgs
    ∧ mergedTotal cap b (mergeSessions cap b existing newMsgs) newMsgs
        = mergedTotal cap b existing newMsgs := by
  refine ⟨fun s hs => mergeSessions_untouched cap b existing newMsgs s hs,
    fun s hs => mergeSessions_touched cap b existing newMsgs s hs,
    mergeSessions_idem cap b existing newMsgs, ?_⟩
  rw [mergedTotal, mergedTotal, mergeSessions_idem]

/-- Witness for the amended C3 at a concrete record and message batch. -/
theorem incremental_merge_overwrites_witness :
    touched [(⟨7, 2, 60⟩ : Message)] 3 = false
    ∧ mergeSessions 10 (5/4) (rebuildSessions 10 (5/4) [⟨7, 1, 0⟩]) [⟨7, 2, 60⟩] 3
        = rebuildSessions 10 (5/4) [⟨7, 1, 0⟩] 3 :=
  ⟨by decide,
    (incremental_merge_overwrites 10 (5/4) (rebuildSessions 10 (5/4) [⟨7, 1, 0⟩])
      [⟨7, 2, 60⟩]).1 3 (by decide)⟩

/-- C10: both the JSON backfill (`populate_from_json.py`) and the incremental
updater (`realtime_activity_updater.py`) persist each session's score and the
total_day_score through `round(x, 4)`; in particular the computed five-message
score 8.20703125 is stored as 8.207, not the exact geometric-series value. -/
theorem persisted_scores_rounded (cap : Nat) (b : ℚ) (msgs : List Message)
    (existing : Nat → Option SessionJson) (s : Nat) (hs : touched msgs s = true) :
    rebuildSessions cap b msgs s
      = some ⟨(runScorer cap b msgs s).messages, round4 (runScorer cap b msgs s).score⟩
    ∧ mergeSessions cap b existing msgs s
      = some ⟨(runScorer cap b msgs s).messages, round4 (runScorer cap b msgs s).score⟩
    ∧ rebuildSessions 5 (5/4)
        [⟨7, 1, 0⟩, ⟨7, 2, 60⟩, ⟨7, 3, 120⟩, ⟨7, 4, 180⟩, ⟨7, 5, 240⟩] 0
        = some ⟨5, 8207/1000⟩
    ∧ rebuildTotal 5 (5/4)
        [⟨7, 1, 0⟩, ⟨7, 2, 60⟩, ⟨7, 3, 120⟩, ⟨7, 4, 180⟩, ⟨7, 5, 240⟩]
        = 8207/1000
    ∧ mergedTotal 5 (5/4) (fun _ => none)
        [⟨7, 1, 0⟩, ⟨7, 2, 60⟩, ⟨7, 3, 120⟩, ⟨7, 4, 180⟩, ⟨7, 5, 240⟩]
        = 8207/1000
    ∧ (runScorer 5 (5/4)
        [⟨7, 1, 0⟩, ⟨7, 2, 60⟩, ⟨7, 3, 120⟩, ⟨7, 4, 180⟩, ⟨7, 5, 240⟩] 0).score
        = 2101/256
    ∧ round4 (2101/256) ≠ (2101/256 : ℚ) := by
  have hscore : (runScorer 5 (5/4)
      [⟨7, 1, 0⟩, ⟨7, 2, 60⟩, ⟨7, 3, 120⟩, ⟨7, 4, 180⟩, ⟨7, 5, 240⟩] 0).score
      = 2101/256 := by
    norm_num [runScorer, sessionIndex, scoreMessage, initialSessionState]
  refine ⟨by simp [rebuildSessions, hs], mergeSessions_touched cap b existing msgs s hs,
    ?_, ?_, ?_, hscore, ?_⟩
  · norm_num [rebuildSessions, touched, sessionIndex, runScorer, scoreMessage,
      initialSessionState, round4_geom5]
  · norm_num [rebuildTotal, touched, sessionIndex, List.range_succ, runScorer,
      scoreMessage, initialSessionState, round4_geom5]
  · norm_num [mergedTotal, sessionsTotal, mergeSessions, touched, sessionIndex,
      List.range_succ, runScorer, scoreMessage, initialSessionState, round4_geom5,
      round4_geom5_rounded]
  · rw [round4_geom5]
    norm_num

/-- Witness for C10 at a one-message batch. -/
theorem persisted_scores_rounded_witness :
    touched [(⟨7, 1, 0⟩ : Message)] 0 = true
    ∧ rebuildSessions 10 (5/4) [⟨7, 1, 0⟩] 0
        = some ⟨(runScorer 10 (5/4) [⟨7, 1, 0⟩] 0).messages,
                round4 (runScorer 10 (5/4) [⟨7, 1, 0⟩] 0).score⟩ :=
  ⟨by decide,
    (persisted_scores_rounded 10 (5/4) [⟨7, 1, 0⟩] (fun _ => none) 0 (by decide)).1⟩

/-! ## Cross-engagement classifiers

Two near-identical scripts classify interactions on a post into engagement
events: `src/cross_engagement_tracker.py` (`process_tweet_engagements`) and
`src/automation/cross_engagement_tracker.py` (the per-tweet classification in
`main`).  The `created_at` column (wall-clock `utcnow` resp. the tweet's
creation date) is not modelled: no claim concerns it. -/

inductive ActionType where
  | reply
  | retweet_or_quote
  deriving Repr, DecidableEq

structure Engagement where
  tweet_id : String
  tweet_author_id : String
  interacting_user_id : String
  action_type : ActionType
  points_awarded : Nat
  deriving Repr, DecidableEq

/-- The dedup key of the `ambassador_engagements` upsert:
`on_conflict='tweet_id,interacting_user_id,action_type'`. -/
def keyOf (e : Engagement) : String × String × ActionType :=
  (e.tweet_id, e.interacting_user_id, e.action_type)

/-- `process_tweet_engagements` of `src/cross_engagement_tracker.py` lines
98-133.  A reply/quote record contributes `reply.get('author_id')`, a
retweeter record `retweet.get('id')`; `if user_id and user_id in
ambassador_ids and user_id != author_id` skips missing and falsy (empty)
ids, non-participants and the author.  Replies carry 2 points, retweets 1. -/
def process_tweet_engagements (tweet_id author_id : String)
    (replies_quotes : List (Option String)) (retweeters : List (Option String))
    (ambassador_ids : List String) : List Engagement :=
  (replies_quotes.filterMap fun user? =>
    match user? with
    | none => none
    | some user_id =>
      if user_id ≠ "" ∧ user_id ∈ ambassador_ids ∧ user_id ≠ author_id
      then some ⟨tweet_id, author_id, user_id, ActionType.reply, 2⟩
      else none)
  ++ (retweeters.filterMap fun user? =>
    match user? with
    | none => none
    | some user_id =>
      if user_id ≠ "" ∧ user_id ∈ ambassador_ids ∧ user_id ≠ author_id
      then some ⟨tweet_id, author_id, user_id, ActionType.retweet_or_quote, 1⟩
      else none)

/-- `str(x)` applied to an optional id (`str(None)` is the string "None"). -/
def strOf (x : Option String) : String :=
  match x with
  | some s => s
  | none => "None"

/-- The `user_engagement_tracker` dict of the automation tracker: user id →
set of credited action types, in insertion order (the Python value is a
`set`, whose iteration order is unspecified; the claims below only concern
membership, counts and points, which do not depend on it). -/
abbrev Tracker := List (String × List ActionType)

def lookupActions (t : Tracker) (uid : String) : List ActionType :=
  match t with
  | [] => []
  | (u, as) :: rest => if u = uid then as else lookupActions rest uid

/-- `tracker.setdefault(uid, set()).add(a)`. -/
def addAction (t : Tracker) (uid : String) (a : ActionType) : Tracker :=
  match t with
  | [] => [(uid, [a])]
  | (u, as) :: rest =>
    if u = uid then (u, if a ∈ as then as else as ++ [a]) :: rest
    else (u, as) :: addAction rest uid a

/-- Retweet loop of `src/automation/cross_engagement_tracker.py` lines
240-251: skip self-engagement, credit `retweet_or_quote` to recognized
participants. -/
def processRetweeters (author : String) (amb : List String) :
    List (Option String) → Tracker → Tracker
  | [], t => t
  | user? :: rest, t =>
    let retweeter_id := strOf user?
    if retweeter_id = author then processRetweeters author amb rest t
    else if retweeter_id ∈ amb then
      processRetweeters author amb rest
        (addAction t retweeter_id ActionType.retweet_or_quote)
    else processRetweeters author amb rest t

/-- Reply/quote loop of `src/automation/cross_engagement_tracker.py` lines
254-271: skip self-engagement; a reply (`isReply`) is always credited, a
quote is credited as `retweet_or_quote` only if the user was not already
credited a retweet. -/
def processReplies (author : String) (amb : List String) :
    List (Option String × Bool) → Tracker → Tracker
  | [], t => t
  | (user?, isRep) :: rest, t =>
    let interaction_author_id := strOf user?
    if interaction_author_id = author then processReplies author amb rest t
    else if interaction_author_id ∈ amb then
      processReplies author amb rest
        (if isRep then addAction t interaction_author_id ActionType.reply
         else if ActionType.retweet_or_quote ∈ lookupActions t interaction_author_id
         then t
         else addAction t interaction_author_id ActionType.retweet_or_quote)
    else processReplies author amb rest t

/-- Event emission, lines 274-284: every credited (user, action) pair becomes
one event worth 2 points. -/
def emitEngagements (tweet_id author : String) : Tracker → List Engagement
  | [] => []
  | (uid, actions) :: rest =>
    actions.map (fun a => ⟨tweet_id, author, uid, a, 2⟩)
      ++ emitEngagements tweet_id author rest

/-- The per-tweet classification of the automation tracker's `main`
(lines 227-284): retweets first, then replies/quotes, then emission. -/
def classifyTweet (tweet_id author : String) (retweeters : List (Option String))
    (replies : List (Option String × Bool)) (amb : List String) : List Engagement :=
  emitEngagements tweet_id author
    (processReplies author amb replies (processRetweeters author amb retweeters []))

/-- Well-formedness of the tracker: user keys are distinct (it models a dict)
and each action set holds no duplicates (it models a set). -/
def TrackerWF (t : Tracker) : Prop :=
  (t.map Prod.fst).Nodup ∧ ∀ p ∈ t, p.2.Nodup

theorem mem_keys_addAction (uid v : String) (a : ActionType) :
    ∀ t : Tracker, v ∈ (addAction t uid a).map Prod.fst →
      v ∈ t.map Prod.fst ∨ v = uid := by
  intro t
  induction t with
  | nil =>
    intro h
    simp [addAction] at h
    exact Or.inr h
  | cons p rest ih =>
    obtain ⟨u, as⟩ := p
    intro h
    rw [addAction] at h
    by_cases hu : u = uid
    · rw [if_pos hu, List.map_cons, List.mem_cons] at h
      rcases h with h | h
      · exact Or.inl (by simp [h])
      · exact Or.inl (by simp [h])
    · rw [if_neg hu, List.map_cons, List.mem_cons] at h
      rcases h with h | h
      · exact Or.inl (by simp [h])
      · rcases ih h with h | h
        · exact Or.inl (by simp [h])
        · exact Or.inr h

theorem addAction_wf (uid : String) (a : ActionType) :
    ∀ t : Tracker, TrackerWF t → TrackerWF (addAction t uid a) := by
  intro t
  induction t with
  | nil =>
    intro _
    constructor
    · simp [addAction]
    · intro p hp
      simp [addAction] at hp
      rw [hp]
      exact List.nodup_singleton a
  | cons q rest ih =>
    intro h
    obtain ⟨u, as⟩ := q
    obtain ⟨hkeys, hvals⟩ := h
    rw [List.map_cons, List.nodup_cons] at hkeys
    have hrest : TrackerWF rest :=
      ⟨hkeys.2, fun p hp => hvals p (List.mem_cons_of_mem _ hp)⟩
    rw [addAction]
    by_cases hu : u = uid
    · rw [if_pos hu]
      constructor
      · rw [List.map_cons, List.nodup_cons]
        exact ⟨hkeys.1, hkeys.2⟩
      · intro p hp
        rcases List.mem_cons.mp hp with hp | hp
        · rw [hp]
          by_cases ha : a ∈ as
          · rw [if_pos ha]
            exact hvals (u, as) (List.mem_cons_self _ _)
          · rw [if_neg ha]
            refine List.Nodup.append (hvals (u, as) (List.mem_cons_self _ _))
              (List.nodup_singleton a) ?_
            intro x hx hxa
            rw [List.mem_singleton] at hxa
            exact ha (hxa ▸ hx)
        · exact hvals p (List.mem_cons_of_mem _ hp)
    · rw [if_neg hu]
      have hwrest := ih hrest
      constructor
      · rw [List.map_cons, List.nodup_cons]
        refine ⟨?_, hwrest.1⟩
        intro hmem
        rcases mem_keys_addAction uid u a rest hmem with h | h
        · exact hkeys.1 h
        · exact hu h
      · intro p hp
        rcases List.mem_cons.mp hp with hp | hp
        · rw [hp]
          exact hvals (u, as) (List.mem_cons_self _ _)
        · exact hwrest.2 p hp

theorem addAction_users {P : String → Prop} (uid : String) (a : ActionType)
    (hP : P uid) :
    ∀ t : Tracker, (∀ p ∈ t, P p.1) → ∀ p ∈ addAction t uid a, P p.1 := by
  intro t
  induction t with
  | nil =>
    intro _ p hp
    simp [addAction] at hp
    rw [hp]
    exact hP
  | cons q rest ih =>
    obtain ⟨u, as⟩ := q
    intro h p hp
    rw [addAction] at hp
    by_cases hu : u = uid
    · rw [if_pos hu] at hp
      rcases List.mem_cons.mp hp with hp | hp
      · rw [hp]
        exact h (u, as) (List.mem_cons_self _ _)
      · exact h p (List.mem_cons_of_mem _ hp)
    · rw [if_neg hu] at hp
      rcases List.mem_cons.mp hp with hp | hp
      · rw [hp]
        exact h (u, as) (List.mem_cons_self _ _)
      · exact ih (fun q hq => h q (List.mem_cons_of_mem _ hq)) p hp

theorem processRetweeters_wf (author : String) (amb : List String) :
    ∀ (l : List (Option String)) (t : Tracker), TrackerWF t →
      TrackerWF (processRetweeters author amb l t) := by
  intro l
  induction l with
  | nil => intro t ht; exact ht
  | cons u? rest ih =>
    intro t ht
    simp only [processRetweeters]
    by_cases h1 : strOf u? = author
    · rw [if_pos h1]
      exact ih t ht
    · rw [if_neg h1]
      by_cases h2 : strOf u? ∈ amb
      · rw [if_pos h2]
        exact ih _ (addAction_wf _ _ t ht)
      · rw [if_neg h2]
        exact ih t ht

theorem processReplies_wf (author : String) (amb : List String) :
    ∀ (l : List (Option String × Bool)) (t : Tracker), TrackerWF t →
      TrackerWF (processReplies author amb l t) := by
  intro l
  induction l with
  | nil => intro t ht; exact ht
  | cons ub rest ih =>
    obtain ⟨u?, isRep⟩ := ub
    intro t ht
    simp only [processReplies]
    by_cases h1 : strOf u? = author
    · rw [if_pos h1]
      exact ih t ht
    · rw [if_neg h1]
      by_cases h2 : strOf u? ∈ amb
      · rw [if_pos h2]
        refine ih _ ?_
        by_cases hrep : isRep
        · rw [if_pos hrep]
          exact addAction_wf _ _ t ht
        · rw [if_neg hrep]
          by_cases hmem : ActionType.retweet_or_quote ∈ lookupActions t (strOf u?)
          · rw [if_pos hmem]
            exact ht
          · rw [if_neg hmem]
            exact addAction_wf _ _ t ht
      · rw [if_neg h2]
        exact ih t ht

theorem processRetweeters_users (author : String) (amb : List String) :
    ∀ (l : List (Option String)) (t : Tracker),
      (∀ p ∈ t, p.1 ≠ author) →
      ∀ p ∈ processRetweeters author amb l t, p.1 ≠ author := by
  intro l
  induction l with
  | nil => intro t ht; exact ht
  | cons u? rest ih =>
    intro t ht
    simp only [processRetweeters]
    by_cases h1 : strOf u? = author
    · rw [if_pos h1]
      exact ih t ht
    · rw [if_neg h1]
      by_cases h2 : strOf u? ∈ amb
      · rw [if_pos h2]
        exact ih _ (@addAction_users (fun v => v ≠ author) _ _ h1 t ht)
      · rw [if_neg h2]
        exact ih t ht

theorem processReplies_users (author : String) (amb : List String) :
    ∀ (l : List (Option String × Bool)) (t : Tracker),
      (∀ p ∈ t, p.1 ≠ author) →
      ∀ p ∈ processReplies author amb l t, p.1 ≠ author := by
  intro l
  induction l with
  | nil => intro t ht; exact ht
  | cons ub rest ih =>
    obtain ⟨u?, isRep⟩ := ub
    intro t ht
    simp only [processReplies]
    by_cases h1 : strOf u? = author
    · rw [if_pos h1]
      exact ih t ht
    · rw [if_neg h1]
      by_cases h2 : strOf u? ∈ amb
      · rw [if_pos h2]
        refine ih _ ?_
        by_cases hrep : isRep
        · rw [if_pos hrep]
          exact @addAction_users (fun v => v ≠ author) _ _ h1 t ht
        · rw [if_neg hrep]
          by_cases hmem : ActionType.retweet_or_quote ∈ lookupActions t (strOf u?)
          · rw [if_pos hmem]
            exact ht
          · rw [if_neg hmem]
            exact @addAction_users (fun v => v ≠ author) _ _ h1 t ht
      · rw [if_neg h2]
        exact ih t ht

theorem mem_emitEngagements {tid author : String} {e : Engagement} :
    ∀ {t : Tracker}, e ∈ emitEngagements tid author t →
      e.tweet_id = tid ∧ e.tweet_author_id = author ∧ e.points_awarded = 2
      ∧ e.interacting_user_id ∈ t.map Prod.fst := by
  intro t
  induction t with
  | nil => intro he; simp [emitEngagements] at he
  | cons p rest ih =>
    obtain ⟨uid, actions⟩ := p
    intro he
    rw [emitEngagements, List.mem_append] at he
    rcases he with he | he
    · rw [List.mem_map] at he
      obtain ⟨a, _, rfl⟩ := he
      exact ⟨rfl, rfl, rfl, by simp⟩
    · obtain ⟨h1, h2, h3, h4⟩ := ih he
      exact ⟨h1, h2, h3, by simp [h4]⟩

theorem emitEngagements_nodup (tid author : String) :
    ∀ t : Tracker, TrackerWF t →
      ((emitEngagements tid author t).map keyOf).Nodup := by
  intro t
  induction t with
  | nil => intro _; simp [emitEngagements]
  | cons p rest ih =>
    intro hwf
    obtain ⟨uid, actions⟩ := p
    obtain ⟨hkeys, hvals⟩ := hwf
    rw [List.map_cons, List.nodup_cons] at hkeys
    have hrest : TrackerWF rest :=
      ⟨hkeys.2, fun q hq => hvals q (List.mem_cons_of_mem _ hq)⟩
    have hact : actions.Nodup := hvals (uid, actions) (List.mem_cons_self _ _)
    rw [emitEngagements, List.map_append]
    refine List.Nodup.append ?_ (ih hrest) ?_
    · rw [List.map_map]
      refine List.Nodup.map ?_ hact
      intro a c hac
      simpa [keyOf] using hac
    · intro k hk1 hk2
      rw [List.map_map, List.mem_map] at hk1
      obtain ⟨a, _, rfl⟩ := hk1
      rw [List.mem_map] at hk2
      obtain ⟨e, he, hke⟩ := hk2
      have h4 := (mem_emitEngagements he).2.2.2
      have huid : e.interacting_user_id = uid := by
        have := congrArg (fun q => q.2.1) hke
        simpa [keyOf] using this
      exact hkeys.1 (huid ▸ h4)

theorem mem_process_tweet_engagements {tid author : String}
    {rps rts : List (Option String)} {amb : List String} {e : Engagement}
    (he : e ∈ process_tweet_engagements tid author rps rts amb) :
    e.tweet_id = tid ∧ e.tweet_author_id = author
    ∧ e.interacting_user_id ≠ author
    ∧ e.points_awarded = (if e.action_type = ActionType.reply then 2 else 1) := by
  rw [process_tweet_engagements, List.mem_append] at he
  rcases he with he | he
  · rw [List.mem_filterMap] at he
    obtain ⟨u?, _, hfe⟩ := he
    cases u? with
    | none => simp at hfe
    | some uid =>
      dsimp only at hfe
      by_cases hc : uid ≠ "" ∧ uid ∈ amb ∧ uid ≠ author
      · rw [if_pos hc] at hfe
        obtain rfl := Option.some.inj hfe
        exact ⟨rfl, rfl, hc.2.2, rfl⟩
      · rw [if_neg hc] at hfe
        exact absurd hfe (Option.noConfusion)
  · rw [List.mem_filterMap] at he
    obtain ⟨u?, _, hfe⟩ := he
    cases u? with
    | none => simp at hfe
    | some uid =>
      dsimp only at hfe
      by_cases hc : uid ≠ "" ∧ uid ∈ amb ∧ uid ≠ author
      · rw [if_pos hc] at hfe
        obtain rfl := Option.some.inj hfe
        exact ⟨rfl, rfl, hc.2.2, rfl⟩
      · rw [if_neg hc] at hfe
        exact absurd hfe (Option.noConfusion)

/-! ## Claims C4, C5, C9 -/

/-- C4 counterexample: in `src/cross_engagement_tracker.py`, a retweet by
participant A of B's post is emitted with `points_awarded: 1`, not 2. -/
theorem engagement_points_counterexample :
    ¬ (∀ e ∈ process_tweet_engagements "t1" "B" [] [some "A"] ["A", "B"],
        e.points_awarded = 2) := by
  intro h
  have h1 : (⟨"t1", "B", "A", ActionType.retweet_or_quote, 1⟩ : Engagement)
      ∈ process_tweet_engagements "t1" "B" [] [some "A"] ["A", "B"] := by
    decide
  exact absurd (h _ h1) (by decide)

/-- C4 (amended): every event emitted by the automation tracker
(`src/automation/cross_engagement_tracker.py`) carries exactly 2 points, for
both action types, and a participant who both replies to and retweets the
same post by another participant is credited 2 + 2 = 4 points; the root-level
tracker (`src/cross_engagement_tracker.py`) instead awards 2 points for a
reply but only 1 point for a retweet_or_quote event. -/
theorem engagement_points_amended (tid author : String)
    (rts : List (Option String)) (rps : List (Option String × Bool))
    (amb : List String) (rps0 rts0 : List (Option String)) :
    (∀ e ∈ classifyTweet tid author rts rps amb, e.points_awarded = 2)
    ∧ (∀ e ∈ process_tweet_engagements tid author rps0 rts0 amb,
        e.points_awarded = (if e.action_type = ActionType.reply then 2 else 1))
    ∧ ((classifyTweet "t1" "B" [some "A"] [(some "A", true)] ["A", "B"]).map
        (fun e => e.points_awarded)).sum = 4 := by
  refine ⟨?_, ?_, by decide⟩
  · intro e he
    exact (mem_emitEngagements he).2.2.1
  · intro e he
    exact (mem_process_tweet_engagements he).2.2.2

/-- Witness for the amended C4 at a concrete reply event. -/
theorem engagement_points_amended_witness :
    (⟨"t1", "B", "A", ActionType.reply, 2⟩ : Engagement)
        ∈ classifyTweet "t1" "B" [] [(some "A", true)] ["A", "B"]
    ∧ (⟨"t1", "B", "A", ActionType.reply, 2⟩ : Engagement).points_awarded = 2 :=
  ⟨by decide,
    (engagement_points_amended "t1" "B" [] [(some "A", true)] ["A", "B"] [] []).1
      _ (by decide)⟩

/-- C5 counterexample: fed a raw reply list holding the same participant
twice, `process_tweet_engagements` of `src/cross_engagement_tracker.py` emits
two events with the same (post, participant, action_type) key. -/
theorem engagement_dedup_counterexample :
    ¬ ((process_tweet_engagements "t1" "B" [some "A", some "A"] [] ["A", "B"]).map
        keyOf).Nodup := by
  decide

/-- C5 (amended): the automation tracker
(`src/automation/cross_engagement_tracker.py`) emits at most one event per
(post, participant, action_type) key for every input, including raw lists
with duplicates; the root-level tracker (`src/cross_engagement_tracker.py`)
can emit duplicate events of the same key, which only the database upsert
keyed on (tweet_id, interacting_user_id, action_type) collapses. -/
theorem engagement_dedup_amended (tid author : String)
    (rts : List (Option String)) (rps : List (Option String × Bool))
    (amb : List String) :
    ((classifyTweet tid author rts rps amb).map keyOf).Nodup := by
  refine emitEngagements_nodup tid author _ ?_
  refine processReplies_wf author amb rps _ ?_
  refine processRetweeters_wf author amb rts [] ?_
  exact ⟨List.nodup_nil, fun p hp => absurd hp (List.not_mem_nil p)⟩

/-- C9: neither classifier ever emits an event whose acting participant equals
the post author (self-engagement is never scored), for any input. -/
theorem no_self_engagement (tid author : String)
    (rps0 rts0 : List (Option String)) (rts : List (Option String))
    (rps : List (Option String × Bool)) (amb : List String) :
    (∀ e ∈ process_tweet_engagements tid author rps0 rts0 amb,
        e.interacting_user_id ≠ e.tweet_author_id)
    ∧ (∀ e ∈ classifyTweet tid author rts rps amb,
        e.interacting_user_id ≠ e.tweet_author_id) := by
  constructor
  · intro e he
    obtain ⟨_, h2, h3, _⟩ := mem_process_tweet_engagements he
    rw [h2]
    exact h3
  · intro e he
    obtain ⟨_, h2, _, h4⟩ := mem_emitEngagements he
    rw [List.mem_map] at h4
    obtain ⟨p, hp, hpe⟩ := h4
    have husers : ∀ q ∈ processReplies author amb rps
        (processRetweeters author amb rts []), q.1 ≠ author := by
      refine processReplies_users author amb rps _ ?_
      refine processRetweeters_users author amb rts [] ?_
      exact fun q hq => absurd hq (List.not_mem_nil q)
    rw [h2, ← hpe]
    exact husers p hp

/-- Witness for C9 at concrete interactions. -/
theorem no_self_engagement_witness :
    (⟨"t1", "B", "A", ActionType.reply, 2⟩ : Engagement)
        ∈ process_tweet_engagements "t1" "B" [some "A"] [] ["A", "B"]
    ∧ (⟨"t1", "B", "A", ActionType.reply, 2⟩ : Engagement).interacting_user_id
        ≠ (⟨"t1", "B", "A", ActionType.reply, 2⟩ : Engagement).tweet_author_id :=
  ⟨by decide,
    (no_self_engagement "t1" "B" [some "A"] [] [] [] ["A", "B"]).1 _ (by decide)⟩

/-! ## Leaderboard ranking -/

structure LBRecord where
  user_id : Nat
  grand_total_score : ℚ
  rank : Option Nat
  deriving Repr, DecidableEq

/-- `sorted(history_records, key=lambda x: x.get('grand_total_score', 0),
reverse=True)` (`src/automation/update_current_leaderboard.py` line 139) —
a stable descending sort, modelled as stable insertion sort: the inserted
record goes before the first record whose score is at most its own. -/
def insertDesc (r : LBRecord) : List LBRecord → List LBRecord
  | [] => [r]
  | x :: xs =>
    if x.grand_total_score ≤ r.grand_total_score then r :: x :: xs
    else x :: insertDesc r xs

def sortDesc : List LBRecord → List LBRecord
  | [] => []
  | x :: xs => insertDesc x (sortDesc xs)

/-- `for rank, record in enumerate(history_records_sorted, 1):
record['rank'] = rank` (lines 140-141). -/
def rankFrom (n : Nat) : List LBRecord → List LBRecord
  | [] => []
  | x :: xs => { x with rank := some n } :: rankFrom (n + 1) xs

/-- Rank assignment of `update_leaderboard`, lines 138-141. -/
def assignRanks (records : List LBRecord) : List LBRecord :=
  rankFrom 1 (sortDesc records)

theorem mem_insertDesc (r y : LBRecord) :
    ∀ l : List LBRecord, y ∈ insertDesc r l → y = r ∨ y ∈ l := by
  intro l
  induction l with
  | nil =>
    intro h
    rw [insertDesc, List.mem_singleton] at h
    exact Or.inl h
  | cons x xs ih =>
    intro h
    rw [insertDesc] at h
    by_cases hx : x.grand_total_score ≤ r.grand_total_score
    · rw [if_pos hx] at h
      rcases List.mem_cons.mp h with h | h
      · exact Or.inl h
      · exact Or.inr h
    · rw [if_neg hx] at h
      rcases List.mem_cons.mp h with h | h
      · exact Or.inr (h ▸ List.mem_cons_self x xs)
      · rcases ih h with h | h
        · exact Or.inl h
        · exact Or.inr (List.mem_cons_of_mem x h)

theorem pairwise_insertDesc (r : LBRecord) :
    ∀ l : List LBRecord,
      List.Pairwise (fun a c => c.grand_total_score ≤ a.grand_total_score) l →
      List.Pairwise (fun a c => c.grand_total_score ≤ a.grand_total_score)
        (insertDesc r l) := by
  intro l
  induction l with
  | nil => intro _; simp [insertDesc]
  | cons x xs ih =>
    intro hp
    rw [List.pairwise_cons] at hp
    rw [insertDesc]
    by_cases hx : x.grand_total_score ≤ r.grand_total_score
    · rw [if_pos hx, List.pairwise_cons]
      refine ⟨?_, List.pairwise_cons.mpr hp⟩
      intro y hy
      rcases List.mem_cons.mp hy with hy | hy
      · rw [hy]
        exact hx
      · exact le_trans (hp.1 y hy) hx
    · rw [if_neg hx, List.pairwise_cons]
      refine ⟨?_, ih hp.2⟩
      intro y hy
      rcases mem_insertDesc r y xs hy with hy | hy
      · rw [hy]
        exact le_of_lt (lt_of_not_le hx)
      · exact hp.1 y hy

theorem pairwise_sortDesc :
    ∀ l : List LBRecord,
      List.Pairwise (fun a c => c.grand_total_score ≤ a.grand_total_score)
        (sortDesc l) := by
  intro l
  induction l with
  | nil => simp [sortDesc]
  | cons x xs ih => exact pairwise_insertDesc x (sortDesc xs) ih

theorem length_insertDesc (r : LBRecord) :
    ∀ l : List LBRecord, (insertDesc r l).length = l.length + 1 := by
  intro l
  induction l with
  | nil => rfl
  | cons x xs ih =>
    rw [insertDesc]
    by_cases hx : x.grand_total_score ≤ r.grand_total_score
    · rw [if_pos hx, List.length_cons, List.length_cons]
    · rw [if_neg hx, List.length_cons, ih, List.length_cons]

theorem length_sortDesc : ∀ l : List LBRecord, (sortDesc l).length = l.length := by
  intro l
  induction l with
  | nil => rfl
  | cons x xs ih => rw [sortDesc, length_insertDesc, ih, List.length_cons]

theorem rankFrom_ranks :
    ∀ (l : List LBRecord) (n : Nat),
      (rankFrom n l).map LBRecord.rank
        = (List.range l.length).map (fun i => some (n + i)) := by
  intro l
  induction l with
  | nil => intro n; rfl
  | cons x xs ih =>
    intro n
    rw [rankFrom, List.map_cons, ih (n + 1), List.length_cons, List.range_succ_eq_map]
    rw [List.map_cons, List.map_map]
    refine congrArg₂ _ (by rw [Nat.add_zero]) ?_
    refine congrArg₂ _ ?_ rfl
    funext i
    simp [Nat.add_assoc, Nat.add_comm 1 i]

theorem rankFrom_scores :
    ∀ (l : List LBRecord) (n : Nat),
      (rankFrom n l).map LBRecord.grand_total_score
        = l.map LBRecord.grand_total_score := by
  intro l
  induction l with
  | nil => intro n; rfl
  | cons x xs ih =>
    intro n
    rw [rankFrom, List.map_cons, List.map_cons, ih (n + 1)]

/-! ## Claim C8 -/

/-- C8: for any participants with any score distribution, including ties, the
ranks assigned to a snapshot are exactly `some 1, …, some N` in list order — a
contiguous 1..N permutation with no gaps and no duplicates — and the list is
ordered by grand_total_score descending, so rank = 1-based position in the
score-descending order. -/
theorem leaderboard_ranks_contiguous (records : List LBRecord) :
    (assignRanks records).map LBRecord.rank
      = (List.range records.length).map (fun i => some (1 + i))
    ∧ ((assignRanks records).map LBRecord.grand_total_score).Pairwise (· ≥ ·)
    ∧ (assignRanks records).length = records.length := by
  refine ⟨?_, ?_, ?_⟩
  · rw [assignRanks, rankFrom_ranks, length_sortDesc]
  · rw [assignRanks, rankFrom_scores, List.pairwise_map]
    exact pairwise_sortDesc records
  · rw [assignRanks]
    have hlen : ∀ (l : List LBRecord) (n : Nat), (rankFrom n l).length = l.length := by
      intro l
      induction l with
      | nil => intro n; rfl
      | cons x xs ih =>
        intro n
        rw [rankFrom, List.length_cons, ih (n + 1), List.length_cons]
    rw [hlen, length_sortDesc]

/-! ## Leaderboard generation gating -/

/-- One row of `leaderboard_history`, at day granularity: the calendar date of
`snapshot_timestamp`, the participant, and their grand total. -/
structure HistoryEntry where
  snapshot_date : Nat
  user_id : Nat
  grand_total_score : ℚ
  deriving Repr, DecidableEq

/-- `main` of `src/generate_leaderboard.py` lines 35-92, history side: if the
`calculate_leaderboard` RPC returns no rows the run exits early; otherwise one
history row per calculated row, tagged with the current generation's
timestamp (whose date is `today`), is appended unconditionally — the script
performs no already-generated-today check. -/
def rootGenerate (today : Nat) (data : List (Nat × ℚ))
    (hist : List HistoryEntry) : List HistoryEntry :=
  if data.isEmpty then hist
  else hist ++ data.map (fun r => ⟨today, r.1, r.2⟩)

/-- `check_if_leaderboard_already_generated_today` of
`src/automation/generate_leaderboard.py` lines 43-77: does any
`leaderboard_history` row carry a snapshot timestamp falling on today's
date? -/
def alreadyGeneratedToday (today : Nat) (hist : List HistoryEntry) : Bool :=
  hist.any (fun e => e.snapshot_date == today)

/-- Modelled from the spec: the regeneration path of
`src/automation/generate_leaderboard.py` `main` clears `leaderboard_history`
and runs `generate_retroactive_leaderboard.sql`, a file not present in the
repository snapshot; per §4.5 of the spec, a generation appends the ranked
list tagged with the generation's timestamp, so the rebuilt history holds one
row per calculated participant dated today. -/
def regenerateHistory (today : Nat) (data : List (Nat × ℚ)) : List HistoryEntry :=
  data.map (fun r => ⟨today, r.1, r.2⟩)

/-- `main` of `src/automation/generate_leaderboard.py` lines 243-282: skip as
a no-op when a history entry dated today exists, otherwise clear and
regenerate. -/
def autoGenerate (today : Nat) (data : List (Nat × ℚ))
    (hist : List HistoryEntry) : List HistoryEntry :=
  if alreadyGeneratedToday today hist then hist
  else regenerateHistory today data

/-! ## Claim C7 -/

/-- C7 counterexample: `src/generate_leaderboard.py` performs no
already-generated-today check — invoked twice on the same day with one
calculated participant it appends a second snapshot, leaving two history rows
dated that day. -/
theorem generation_once_counterexample :
    ¬ (((rootGenerate 0 [(1, 5)] (rootGenerate 0 [(1, 5)] [])).filter
        (fun e => e.snapshot_date == 0)).length ≤ 1) := by
  decide

/-- C7 (amended): the automation generator
(`src/automation/generate_leaderboard.py`) checks for an existing history
entry dated today and skips as a detectable no-op when one exists, so its
same-day re-invocation changes nothing; the root-level
`src/generate_leaderboard.py` performs no such check and appends a snapshot on
every run with data. -/
theorem generation_once_amended (today : Nat) (data : List (Nat × ℚ))
    (hist : List HistoryEntry) (hdata : data ≠ []) :
    autoGenerate today data (autoGenerate today data hist)
      = autoGenerate today data hist
    ∧ (alreadyGeneratedToday today hist = true →
        autoGenerate today data hist = hist) := by
  constructor
  · by_cases h : alreadyGeneratedToday today hist
    · have hsame : autoGenerate today data hist = hist := by
        rw [autoGenerate, if_pos h]
      rw [hsame]
      exact hsame
    · have hinner : autoGenerate today data hist = regenerateHistory today data := by
        rw [autoGenerate, if_neg h]
      have hgen : alreadyGeneratedToday today (regenerateHistory today data) = true := by
        cases data with
        | nil => exact absurd rfl hdata
        | cons d rest => simp [alreadyGeneratedToday, regenerateHistory]
      rw [hinner, autoGenerate, if_pos hgen]
  · intro h
    rw [autoGenerate, if_pos h]

/-- Witness for the amended C7: a same-day second invocation is a no-op. -/
theorem generation_once_amended_witness :
    ([((1 : Nat), (5 : ℚ))] ≠ [])
    ∧ autoGenerate 3 [(1, 5)] (autoGenerate 3 [(1, 5)] [])
        = autoGenerate 3 [(1, 5)] [] :=
  ⟨by decide, (generation_once_amended 3 [(1, 5)] [] (by decide)).1⟩

end YellowLogic
